import Mathlib

/-!
Verification of the `aws-dynamodb-adapter` DynamoDB adapter.

This file shallowly embeds the adapter's pure computational core
(`src/index.ts`): the attribute-value model with JavaScript truthiness,
JavaScript object operations (property read, write, delete), the
projection-expression builder, the update-expression compiler inside
`updateWithAttributes`, the schema-managed field stamping inside `create`
and `updateWithAttributes`, and the `handleError` backend-error mapper.
Network effects are made explicit: the store's response is a parameter of
each model, and the request an operation would transmit is part of its
result.
-/

namespace AwsDynamoDBAdapter

/-- A JavaScript value stored in an attribute map.  Lists, maps and binary
payloads are never equal to the empty string and are always truthy, so they
are collapsed into the single `object` form; the claims under study only
discriminate values through truthiness and the empty-string comparison. -/
inductive AttrValue where
  | str (s : String)
  | num (n : Int)
  | bool (b : Bool)
  | null
  | object
  deriving DecidableEq, Repr

/-- JavaScript truthiness of an attribute value. -/
def truthy : AttrValue → Bool
  | .str s => s != ""
  | .num n => n != 0
  | .bool b => b
  | .null => false
  | .object => true

/-- JavaScript truthiness of a possibly-`undefined` value (`undefined` is
falsy). -/
def truthyOpt : Option AttrValue → Bool
  | none => false
  | some v => truthy v

/-- A JavaScript object used as an attribute map: entries in insertion
order.  JavaScript objects have unique keys; theorems that depend on
uniqueness take it as a `Nodup` hypothesis. -/
abbrev AttrMap := List (String × AttrValue)

/-- A JavaScript object mapping placeholder names to field names. -/
abbrev NameMap := List (String × String)

/-- Property read `m[k]`: the value stored at `k`, or `undefined`. -/
def jsGet {α : Type} (m : List (String × α)) (k : String) : Option α :=
  (m.find? (fun e => e.1 == k)).map (fun e => e.2)

/-- Property deletion `delete m[k]`. -/
def jsDelete {α : Type} (m : List (String × α)) (k : String) : List (String × α) :=
  m.filter (fun e => e.1 != k)

/-- Property write `m[k] = v`: replaces the value in place when the key is
present, appends a new entry otherwise. -/
def assocSet {α : Type} : List (String × α) → String → α → List (String × α)
  | [], k, v => [(k, v)]
  | e :: t, k, v => if e.1 == k then (k, v) :: t else e :: assocSet t k v

/-- Decimal digits of `n`, most significant first, computed with explicit
fuel so that the kernel can evaluate it.  Empty for `n = 0`. -/
def decDigitsAux : Nat → Nat → List Char
  | 0, _ => []
  | f + 1, n => if n = 0 then [] else decDigitsAux f (n / 10) ++ [Nat.digitChar (n % 10)]

/-- Decimal rendering of a natural number, the JavaScript template
interpolation used for the `#param{i}` and `:val{i}` placeholders. -/
def natToString (n : Nat) : String :=
  if n = 0 then "0" else String.mk (decDigitsAux n n)

/-- Reads a digit list back into a number; left inverse used to prove that
decimal rendering is injective. -/
def decValAux : Nat → List Char → Nat
  | acc, [] => acc
  | acc, c :: t => decValAux (acc * 10 + (c.toNat - 48)) t

/-- The Boom error kinds produced by `handleError`. -/
inductive BoomKind where
  | notFound
  | conflict
  | badImplementation
  deriving DecidableEq, Repr

/-- `DynamoDBAdapter.handleError`: classifies a backend error by its `name`
into a Boom error. -/
def handleError (name : String) : BoomKind :=
  if name == "NotFound" then BoomKind.notFound
  else if name == "ConditionalCheckFailedException" then BoomKind.conflict
  else BoomKind.badImplementation

/-- An error surfaced to the adapter's caller: either a backend error
rethrown raw (`throw error`) or a Boom error produced by `handleError`
(`throw DynamoDBAdapter.handleError(error)`). -/
inductive AdapterError where
  | raw (name : String)
  | boom (kind : BoomKind)
  deriving DecidableEq, Repr

/-- Equality of `Except` results is decidable componentwise; needed to
evaluate concrete scenarios. -/
instance instDecidableEqExcept {e a : Type} [DecidableEq e] [DecidableEq a] :
    DecidableEq (Except e a)
  | Except.ok x, Except.ok y =>
    if h : x = y then isTrue (by rw [h]) else isFalse (fun hh => h (Except.ok.inj hh))
  | Except.error x, Except.error y =>
    if h : x = y then isTrue (by rw [h]) else isFalse (fun hh => h (Except.error.inj hh))
  | Except.ok _, Except.error _ => isFalse (fun hh => Except.noConfusion hh)
  | Except.error _, Except.ok _ => isFalse (fun hh => Except.noConfusion hh)

/-- `fields.split(',')` on the character list: splits at every comma,
empty string yields one empty segment. -/
def splitCommaChars : List Char → List (List Char)
  | [] => [[]]
  | c :: rest =>
    if c = ',' then [] :: splitCommaChars rest
    else
      match splitCommaChars rest with
      | [] => [[c]]
      | h :: t => (c :: h) :: t

/-- JavaScript `fields.split(',')`. -/
def jsSplitComma (s : String) : List String :=
  (splitCommaChars s.data).map String.mk

/-- The object built by `projectionExpression`. -/
structure ProjectionResult where
  projectionExpression : String
  expressionAttributeNames : NameMap
  deriving DecidableEq, Repr

/-- The `fieldsObj.forEach` loop of `projectionExpression`: the first field
is appended bare, later fields with a comma-space separator, and each field
is registered as `#field -> field`. -/
def projectionBuild (fieldsObj : List String) : ProjectionResult :=
  (fieldsObj.foldl
    (fun acc field =>
      let expr :=
        if acc.2 = 0 then acc.1.projectionExpression ++ ("#" ++ field)
        else acc.1.projectionExpression ++ (", #" ++ field)
      (ProjectionResult.mk expr (assocSet acc.1.expressionAttributeNames ("#" ++ field) field),
        acc.2 + 1))
    (ProjectionResult.mk "" [], 0)).1

/-- `Array.isArray(fields)` where `fields` is a string value: `false` in
JavaScript, for every string. -/
def isArrayOfString (_ : String) : Bool := false

/-- `Array.isArray` applied to the result of `String.split`: `true` in
JavaScript, for every split result. -/
def isArrayOfSplit (_ : List String) : Bool := true

/-- `DynamoDBAdapter.projectionExpression` in the TypeScript source
(`src/index.ts`): splits the comma-separated field list into `fieldsObj`,
then tests `Array.isArray` on the original string argument `fields` and
returns `undefined` when that test fails. -/
def projectionExpression (fields : String) : Option ProjectionResult :=
  let fieldsObj := jsSplitComma fields
  if !(isArrayOfString fields) then none
  else some (projectionBuild fieldsObj)

/-- `projectionExpression` in the earlier JavaScript source, which
reassigns `fields` to the split array before the `Array.isArray` test, so
the guard passes and the builder runs. -/
def projectionExpressionJs (fields : String) : Option ProjectionResult :=
  let fieldsObj := jsSplitComma fields
  if !(isArrayOfSplit fieldsObj) then none
  else some (projectionBuild fieldsObj)

/-- The response phase of `findOne`: a transport failure is rethrown raw,
a present item is returned, and an absent item is turned into a synthetic
`NotFound` backend error pushed through `handleError`. -/
def findOne (getOutcome : Except String (Option AttrMap)) : Except AdapterError AttrMap :=
  match getOutcome with
  | Except.error e => Except.error (AdapterError.raw e)
  | Except.ok (some item) => Except.ok item
  | Except.ok none => Except.error (AdapterError.boom (handleError "NotFound"))

/-- A JavaScript result object whose properties may be assigned
possibly-`undefined` values. -/
abbrev RespondMap := List (String × Option AttrValue)

/-- Property read on a result object: `some` when the property was
assigned, `none` when it was never set. -/
def respondGet (r : RespondMap) (k : String) : Option (Option AttrValue) :=
  (r.find? (fun e => e.1 == k)).map (fun e => e.2)

/-- `const id = itemId || uuidV1()`: the caller-supplied identifier when
truthy, else the generated one. -/
def createId (itemId : Option String) (genId : String) : String :=
  match itemId with
  | some s => if s == "" then genId else s
  | none => genId

/-- The field-stamping prefix of `create`: writes `id` when the schema
manages it, then `created`, then `updated` — the latter copied from
`item.created` when that is truthy, else stamped with the current time. -/
def createStamp (schemaId schemaCreated schemaUpdated : Bool) (id : String)
    (nowCreated nowUpdated : String) (item0 : AttrMap) : AttrMap :=
  let item1 := if schemaId then assocSet item0 "id" (AttrValue.str id) else item0
  let item2 :=
    if schemaCreated then assocSet item1 "created" (AttrValue.str nowCreated) else item1
  if schemaUpdated then
    if truthyOpt (jsGet item2 "created") then
      assocSet item2 "updated" ((jsGet item2 "created").getD AttrValue.null)
    else assocSet item2 "updated" (AttrValue.str nowUpdated)
  else item2

/-- `create`: stamps the schema-managed fields into the caller's item,
sends a put and either surfaces the managed subset or rethrows the backend
error raw.  Effects are explicit parameters: `genId` stands for `uuidV1()`,
`nowCreated` and `nowUpdated` for the two `new Date().toISOString()` calls,
`putOutcome` for the store's answer to `doc.put`.  The first component of
the result is the caller's item as mutated by the call. -/
def create (schemaId schemaCreated schemaUpdated : Bool)
    (itemId : Option String) (genId : String) (nowCreated nowUpdated : String)
    (item0 : AttrMap) (putOutcome : Except String Unit) :
    AttrMap × Except AdapterError RespondMap :=
  let id := createId itemId genId
  let item3 := createStamp schemaId schemaCreated schemaUpdated id nowCreated nowUpdated item0
  match putOutcome with
  | Except.ok _ =>
    let r1 : RespondMap := if schemaId then [("id", jsGet item3 "id")] else []
    let r2 := if schemaUpdated then r1 ++ [("updated", jsGet item3 "updated")] else r1
    let r3 := if schemaCreated then r2 ++ [("created", jsGet item3 "created")] else r2
    (item3, Except.ok r3)
  | Except.error e => (item3, Except.error (AdapterError.raw e))

/-- The expression-related fields of an `UpdateItemInput`; each map is
`none` when the property is absent. -/
structure UpdateParams where
  updateExpression : String
  expressionAttributeNames : Option NameMap
  expressionAttributeValues : Option AttrMap
  deriving DecidableEq, Repr

/-- The mutable state of the `Object.keys(item).forEach` loop in
`updateWithAttributes`. -/
structure CompileState where
  i : Nat
  set : Nat
  remove : Nat
  params : UpdateParams
  setAction : String
  removeAction : String
  deriving DecidableEq, Repr

/-- One iteration of the compile loop of `updateWithAttributes`: the
placeholder counter is incremented, `#param{i}` is registered for the
field, and the field is routed to the SET clause when its value is not the
empty string (and a values map is present), to the REMOVE clause
otherwise.  The loop walks the entries of a JavaScript object, so each
`entry` is a key together with the value `item[key]`. -/
def compileStep (st : CompileState) (entry : String × AttrValue) : CompileState :=
  let i := st.i + 1
  let names :=
    match st.params.expressionAttributeNames with
    | some ns => some (assocSet ns ("#param" ++ natToString i) entry.1)
    | none => none
  if entry.2 ≠ AttrValue.str "" ∧ st.params.expressionAttributeValues.isSome = true then
    let values :=
      match st.params.expressionAttributeValues with
      | some vs => some (assocSet vs (":val" ++ natToString i) entry.2)
      | none => none
    let set := st.set + 1
    let piece :=
      if set = 1 then "SET #param" ++ natToString i ++ " = :val" ++ natToString i
      else ", #param" ++ natToString i ++ " = :val" ++ natToString i
    { i := i, set := set, remove := st.remove
      , params := { updateExpression := st.params.updateExpression
                  , expressionAttributeNames := names
                  , expressionAttributeValues := values }
      , setAction := st.setAction ++ piece
      , removeAction := st.removeAction }
  else
    let remove := st.remove + 1
    let piece :=
      if remove = 1 then "REMOVE #param" ++ natToString i
      else ", #param" ++ natToString i
    { i := i, set := st.set, remove := remove
      , params := { updateExpression := st.params.updateExpression
                  , expressionAttributeNames := names
                  , expressionAttributeValues := st.params.expressionAttributeValues }
      , setAction := st.setAction
      , removeAction := st.removeAction ++ piece }

/-- The whole compile pass of `updateWithAttributes`: the loop starting
from counters at zero and the two clause accumulators holding one space,
then the deletion of the values map when no field required SET, then the
concatenation of both accumulators onto the update expression. -/
def compileUpdate (base : UpdateParams) (item : AttrMap) : UpdateParams :=
  let st := item.foldl compileStep
    (CompileState.mk 0 0 0 base " " " ")
  let p :=
    if st.set = 0 then
      { st.params with expressionAttributeValues := none }
    else st.params
  { p with updateExpression := p.updateExpression ++ st.setAction ++ st.removeAction }

/-- The caller-supplied `originParams` of `updateWithAttributes`: the key
plus the expression fields the caller may have pre-populated (`none` when
the property is absent from the object). -/
structure OriginUpdateParams where
  key : AttrMap
  updateExpression : Option String
  expressionAttributeNames : Option NameMap
  expressionAttributeValues : Option AttrMap
  deriving DecidableEq, Repr

/-- The spread
`{ ...{ UpdateExpression: '', ExpressionAttributeNames: {},
ExpressionAttributeValues: {} }, ...originParams }`: a property present on
`originParams` wins, an absent one falls back to the default. -/
def spreadDefaults (o : OriginUpdateParams) : UpdateParams :=
  { updateExpression := o.updateExpression.getD ""
  , expressionAttributeNames := some (o.expressionAttributeNames.getD [])
  , expressionAttributeValues := some (o.expressionAttributeValues.getD []) }

/-- Origin params carrying only a key, the shape of the standard
`updateAttributes(key, attributes)` call. -/
def originOfKey (key : AttrMap) : OriginUpdateParams :=
  OriginUpdateParams.mk key none none none

/-- The key-exclusion step of `updateWithAttributes`:
`Object.keys(key).forEach(k => { if (item[k]) delete item[k]; })` —
a field is deleted only when its current value is truthy. -/
def removeKeyFields (keyNames : List String) (item : AttrMap) : AttrMap :=
  keyNames.foldl
    (fun acc k => if truthyOpt (jsGet acc k) then jsDelete acc k else acc) item

/-- The parameters `updateWithAttributes` passes to `doc.update`;
`extendParams` contributes the table name and the constant
consumed-capacity flag. -/
structure UpdateItemRequest where
  tableName : String
  returnConsumedCapacity : String
  key : AttrMap
  params : UpdateParams
  deriving DecidableEq, Repr

/-- What a run of `updateWithAttributes` has done by the time `doc.update`
is invoked: the caller's attribute map after the in-place mutations, and
the request transmitted to the store. -/
structure UpdateWithAttributesRun where
  callerItem : AttrMap
  request : UpdateItemRequest
  deriving DecidableEq, Repr

/-- `updateWithAttributes` up to the `doc.update` call: stamps `updated`
into the caller's map when the schema manages it, deletes the truthy
key-named fields from the caller's map, compiles the expression, and
builds the outgoing request.  The request is built and transmitted
unconditionally; no validation precedes the network call. -/
def updateWithAttributesRequest (schemaUpdated : Bool) (now : String)
    (tableName : String) (o : OriginUpdateParams) (item0 : AttrMap) :
    UpdateWithAttributesRun :=
  let item1 :=
    if schemaUpdated then assocSet item0 "updated" (AttrValue.str now) else item0
  let item := removeKeyFields (o.key.map Prod.fst) item1
  let p := compileUpdate (spreadDefaults o) item
  { callerItem := item
  , request :=
    { tableName := tableName
    , returnConsumedCapacity := "INDEXES"
    , key := o.key
    , params := p } }

/-- The response phase of `updateWithAttributes`: on success, surfaces
`updated` when the schema manages it and always echoes the key's `id`; on
failure, maps the backend error through `handleError`. -/
def updateWithAttributesRespond (schemaUpdated : Bool) (key finalItem : AttrMap)
    (outcome : Except String Unit) : Except AdapterError RespondMap :=
  match outcome with
  | Except.ok _ =>
    let r1 : RespondMap :=
      if schemaUpdated then [("updated", jsGet finalItem "updated")] else []
    Except.ok (r1 ++ [("id", jsGet key "id")])
  | Except.error e => Except.error (AdapterError.boom (handleError e))

/-- The standard `updateAttributes(key, attributes)` call shape: origin
params carrying only the key, so the expression fields start from the
defaults. -/
def updateAttributes (schemaUpdated : Bool) (now tableName : String)
    (key item0 : AttrMap) : UpdateWithAttributesRun :=
  updateWithAttributesRequest schemaUpdated now tableName (originOfKey key) item0

/-- Specification view: the 1-based indices, counting from `i`, of the
fields routed to the SET clause (value different from the empty-string
delete sentinel). -/
def setIdxFrom : Nat → AttrMap → List Nat
  | _, [] => []
  | i, e :: t =>
    if e.2 = AttrValue.str "" then setIdxFrom (i + 1) t
    else (i + 1) :: setIdxFrom (i + 1) t

/-- Specification view: the indices of the fields routed to the REMOVE
clause (value equal to the empty-string delete sentinel). -/
def removeIdxFrom : Nat → AttrMap → List Nat
  | _, [] => []
  | i, e :: t =>
    if e.2 = AttrValue.str "" then (i + 1) :: removeIdxFrom (i + 1) t
    else removeIdxFrom (i + 1) t

/-- Specification view: the rendered SET clause for a list of placeholder
indices, given how many SET entries were already emitted. -/
def renderSetList : Nat → List Nat → String
  | _, [] => ""
  | s, n :: t =>
    (if s + 1 = 1 then "SET #param" ++ natToString n ++ " = :val" ++ natToString n
     else ", #param" ++ natToString n ++ " = :val" ++ natToString n) ++
      renderSetList (s + 1) t

/-- Specification view: the rendered REMOVE clause for a list of
placeholder indices. -/
def renderRemoveList : Nat → List Nat → String
  | _, [] => ""
  | r, n :: t =>
    (if r + 1 = 1 then "REMOVE #param" ++ natToString n
     else ", #param" ++ natToString n) ++ renderRemoveList (r + 1) t

/-- Specification view: the placeholder-name registrations of one compile
pass, `#param{i} -> field`, one per field in order. -/
def namesFrom : Nat → AttrMap → NameMap
  | _, [] => []
  | i, e :: t => ("#param" ++ natToString (i + 1), e.1) :: namesFrom (i + 1) t

/-- Specification view: the value-placeholder registrations of one compile
pass, `:val{i} -> value`, one per SET-routed field in order. -/
def valuesFrom : Nat → AttrMap → AttrMap
  | _, [] => []
  | i, e :: t =>
    if e.2 = AttrValue.str "" then valuesFrom (i + 1) t
    else (":val" ++ natToString (i + 1), e.2) :: valuesFrom (i + 1) t

end AwsDynamoDBAdapter

namespace AwsDynamoDBAdapter

theorem decValAux_nil (acc : Nat) : decValAux acc [] = acc := rfl

theorem decValAux_cons (acc : Nat) (c : Char) (t : List Char) :
    decValAux acc (c :: t) = decValAux (acc * 10 + (c.toNat - 48)) t := rfl

theorem decValAux_append_singleton (l : List Char) (c : Char) :
    ∀ acc, decValAux acc (l ++ [c]) = (decValAux acc l) * 10 + (c.toNat - 48) := by
  induction l with
  | nil => intro acc; rfl
  | cons x t ih =>
    intro acc
    rw [List.cons_append, decValAux_cons, decValAux_cons, ih]

theorem digitChar_toNat_sub : ∀ d : Nat, d < 10 → (Nat.digitChar d).toNat - 48 = d := by
  decide

theorem decDigitsAux_zero (n : Nat) : decDigitsAux 0 n = [] := rfl

theorem decDigitsAux_succ (f n : Nat) :
    decDigitsAux (f + 1) n =
      if n = 0 then [] else decDigitsAux f (n / 10) ++ [Nat.digitChar (n % 10)] := rfl

theorem decValAux_decDigitsAux : ∀ (f n : Nat), n ≤ f → decValAux 0 (decDigitsAux f n) = n := by
  intro f
  induction f with
  | zero =>
    intro n hn
    have hn0 : n = 0 := by omega
    subst hn0
    rw [decDigitsAux_zero, decValAux_nil]
  | succ f ih =>
    intro n hn
    by_cases h0 : n = 0
    · subst h0
      rw [decDigitsAux_succ, if_pos rfl, decValAux_nil]
    · have hdiv : n / 10 ≤ f := by
        have : n / 10 < n := Nat.div_lt_self (Nat.pos_of_ne_zero h0) (by omega)
        omega
      rw [decDigitsAux_succ, if_neg h0, decValAux_append_singleton, ih _ hdiv,
        digitChar_toNat_sub _ (Nat.mod_lt n (by omega))]
      omega

theorem natToString_injective : ∀ {m n : Nat}, natToString m = natToString n → m = n := by
  intro m n h
  unfold natToString at h
  by_cases hm : m = 0 <;> by_cases hn : n = 0
  · omega
  · rw [if_pos hm, if_neg hn] at h
    have hdata := congrArg String.data h
    simp only [String.mk] at hdata
    have := congrArg (decValAux 0) hdata
    rw [decValAux_decDigitsAux n n le_rfl, decValAux_cons, decValAux_nil] at this
    have hz : (0 : Nat) * 10 + (('0' : Char).toNat - 48) = 0 := by decide
    rw [hz] at this
    omega
  · rw [if_neg hm, if_pos hn] at h
    have hdata := congrArg String.data h
    simp only [String.mk] at hdata
    have := congrArg (decValAux 0) hdata
    rw [decValAux_decDigitsAux m m le_rfl, decValAux_cons, decValAux_nil] at this
    have hz : (0 : Nat) * 10 + (('0' : Char).toNat - 48) = 0 := by decide
    rw [hz] at this
    omega
  · rw [if_neg hm, if_neg hn] at h
    have hdata := congrArg String.data h
    simp only [String.mk] at hdata
    have := congrArg (decValAux 0) hdata
    rwa [decValAux_decDigitsAux m m le_rfl, decValAux_decDigitsAux n n le_rfl] at this

theorem string_append_left_cancel {a b c : String} (h : a ++ b = a ++ c) : b = c := by
  have hdata := congrArg String.data h
  simp only [String.data_append] at hdata
  exact String.ext (List.append_cancel_left hdata)

theorem natToString_append_injective {pre : String} {m n : Nat}
    (h : pre ++ natToString m = pre ++ natToString n) : m = n :=
  natToString_injective (string_append_left_cancel h)

theorem jsGet_nil {α : Type} (k : String) : jsGet ([] : List (String × α)) k = none := rfl

theorem jsGet_cons {α : Type} (e : String × α) (t : List (String × α)) (k : String) :
    jsGet (e :: t) k = if e.1 == k then some e.2 else jsGet t k := by
  by_cases h : e.1 == k <;> simp [jsGet, List.find?, h]

theorem assocSet_nil {α : Type} (k : String) (v : α) : assocSet [] k v = [(k, v)] := rfl

theorem assocSet_cons {α : Type} (e : String × α) (t : List (String × α)) (k : String) (v : α) :
    assocSet (e :: t) k v = if e.1 == k then (k, v) :: t else e :: assocSet t k v := rfl

theorem jsGet_assocSet_self {α : Type} (m : List (String × α)) (k : String) (v : α) :
    jsGet (assocSet m k v) k = some v := by
  induction m with
  | nil => simp [assocSet_nil, jsGet_cons]
  | cons e t ih =>
    rw [assocSet_cons]
    by_cases h : e.1 == k
    · simp [h, jsGet_cons]
    · rw [if_neg h, jsGet_cons, if_neg h, ih]

theorem jsGet_assocSet_ne {α : Type} (m : List (String × α)) (k k' : String) (v : α)
    (h : k ≠ k') : jsGet (assocSet m k v) k' = jsGet m k' := by
  induction m with
  | nil =>
    have hk : (k == k') = false := by simp [h]
    simp [assocSet_nil, jsGet_cons, jsGet_nil, hk]
  | cons e t ih =>
    rw [assocSet_cons]
    by_cases he : e.1 == k
    · have he1 : e.1 = k := by simpa using he
      have hk : (k == k') = false := by simp [h]
      simp [he, jsGet_cons, hk, he1]
    · simp [he, jsGet_cons, ih]

theorem assocSet_of_jsGet_none {α : Type} (m : List (String × α)) (k : String) (v : α)
    (h : jsGet m k = none) : assocSet m k v = m ++ [(k, v)] := by
  induction m with
  | nil => rfl
  | cons e t ih =>
    rw [jsGet_cons] at h
    by_cases he : e.1 == k
    · simp [he] at h
    · rw [assocSet_cons, if_neg (by simp_all), List.cons_append, ih (by simpa [he] using h)]

theorem jsGet_eq_none_iff {α : Type} (m : List (String × α)) (k : String) :
    jsGet m k = none ↔ ∀ x ∈ m, x.1 ≠ k := by
  simp [jsGet, List.find?_eq_none]

theorem mem_jsDelete {α : Type} (m : List (String × α)) (k : String) (x : String × α) :
    x ∈ jsDelete m k ↔ x ∈ m ∧ x.1 ≠ k := by
  simp [jsDelete, List.mem_filter, bne_iff_ne]

theorem jsGet_jsDelete_self {α : Type} (m : List (String × α)) (k : String) :
    jsGet (jsDelete m k) k = none := by
  rw [jsGet_eq_none_iff]
  intro x hx
  exact ((mem_jsDelete m k x).mp hx).2

theorem jsDelete_cons {α : Type} (e : String × α) (t : List (String × α)) (k : String) :
    jsDelete (e :: t) k = if e.1 != k then e :: jsDelete t k else jsDelete t k := by
  simp [jsDelete, List.filter_cons]

theorem jsGet_jsDelete_ne {α : Type} (m : List (String × α)) (k k' : String) (h : k ≠ k') :
    jsGet (jsDelete m k) k' = jsGet m k' := by
  induction m with
  | nil => rfl
  | cons e t ih =>
    rw [jsDelete_cons]
    by_cases he : e.1 = k
    · rw [if_neg (by simp [he]), jsGet_cons, if_neg (by simp [he, h]), ih]
    · rw [if_pos (by simp [he]), jsGet_cons, jsGet_cons, ih]

theorem jsGet_of_mem_nodup {α : Type} (m : List (String × α)) (e : String × α)
    (hnd : (m.map Prod.fst).Nodup) (he : e ∈ m) : jsGet m e.1 = some e.2 := by
  induction m with
  | nil => cases he
  | cons a t ih =>
    rcases List.mem_cons.mp he with rfl | ht
    · simp [jsGet_cons]
    · have hnd' := hnd
      rw [List.map_cons, List.nodup_cons] at hnd'
      have hne : a.1 ≠ e.1 := by
        intro hEq
        exact hnd'.1 (hEq ▸ List.mem_map_of_mem Prod.fst ht)
      rw [jsGet_cons, if_neg (by simp [hne])]
      exact ih hnd'.2 ht

theorem removeKeyFields_nil (m : AttrMap) : removeKeyFields [] m = m := rfl

theorem removeKeyFields_cons (k : String) (ks : List String) (m : AttrMap) :
    removeKeyFields (k :: ks) m =
      removeKeyFields ks (if truthyOpt (jsGet m k) then jsDelete m k else m) := rfl

theorem mem_of_mem_removeKeyFields :
    ∀ (ks : List String) (m : AttrMap) (x : String × AttrValue),
      x ∈ removeKeyFields ks m → x ∈ m := by
  intro ks
  induction ks with
  | nil => intro m x hx; simpa [removeKeyFields_nil] using hx
  | cons k ks ih =>
    intro m x hx
    rw [removeKeyFields_cons] at hx
    have hx' := ih _ _ hx
    by_cases ht : truthyOpt (jsGet m k)
    · rw [if_pos ht] at hx'
      exact ((mem_jsDelete m k x).mp hx').1
    · rwa [if_neg ht] at hx'

theorem jsGet_removeKeyFields_none (ks : List String) (m : AttrMap) (k : String)
    (h : jsGet m k = none) : jsGet (removeKeyFields ks m) k = none := by
  rw [jsGet_eq_none_iff]
  intro x hx
  exact (jsGet_eq_none_iff m k).mp h x (mem_of_mem_removeKeyFields ks m x hx)

theorem jsGet_removeKeyFields_of_truthy :
    ∀ (ks : List String) (m : AttrMap) (k : String), ks.Nodup → k ∈ ks →
      truthyOpt (jsGet m k) = true → jsGet (removeKeyFields ks m) k = none := by
  intro ks
  induction ks with
  | nil => intro m k _ hk; cases hk
  | cons k' ks ih =>
    intro m k hnd hk ht
    rw [List.nodup_cons] at hnd
    rw [removeKeyFields_cons]
    by_cases hEq : k = k'
    · subst hEq
      rw [if_pos ht]
      exact jsGet_removeKeyFields_none ks _ k (jsGet_jsDelete_self m k)
    · have hk' : k ∈ ks := by
        rcases List.mem_cons.mp hk with h | h
        · exact absurd h hEq
        · exact h
      by_cases htk' : truthyOpt (jsGet m k')
      · rw [if_pos htk']
        exact ih _ k hnd.2 hk' (by rwa [jsGet_jsDelete_ne m k' k (fun h => hEq h.symm)])
      · rw [if_neg htk']
        exact ih _ k hnd.2 hk' ht

theorem mem_removeKeyFields_of_not_mem :
    ∀ (ks : List String) (m : AttrMap) (e : String × AttrValue),
      e ∈ m → e.1 ∉ ks → e ∈ removeKeyFields ks m := by
  intro ks
  induction ks with
  | nil => intro m e he _; simpa [removeKeyFields_nil] using he
  | cons k ks ih =>
    intro m e he hnk
    rw [removeKeyFields_cons]
    have hne : e.1 ≠ k := fun h => hnk (h ▸ List.mem_cons_self k ks)
    have hnk' : e.1 ∉ ks := fun h => hnk (List.mem_cons_of_mem k h)
    by_cases ht : truthyOpt (jsGet m k)
    · rw [if_pos ht]
      exact ih _ e ((mem_jsDelete m k e).mpr ⟨he, hne⟩) hnk'
    · rw [if_neg ht]
      exact ih _ e he hnk'

theorem keys_nodup_jsDelete (m : AttrMap) (k : String)
    (hnd : (m.map Prod.fst).Nodup) : ((jsDelete m k).map Prod.fst).Nodup :=
  hnd.sublist (List.Sublist.map Prod.fst (List.filter_sublist m))

theorem truthy_of_mem_removeKeyFields :
    ∀ (ks : List String) (m : AttrMap) (e : String × AttrValue),
      (m.map Prod.fst).Nodup → e ∈ removeKeyFields ks m → e.1 ∈ ks →
      truthy e.2 = false := by
  intro ks
  induction ks with
  | nil => intro m e _ _ hk; cases hk
  | cons k ks ih =>
    intro m e hnd he hk
    rw [removeKeyFields_cons] at he
    by_cases hks : e.1 ∈ ks
    · by_cases ht : truthyOpt (jsGet m k)
      · rw [if_pos ht] at he
        exact ih _ e (keys_nodup_jsDelete m k hnd) he hks
      · rw [if_neg ht] at he
        exact ih _ e hnd he hks
    · have hek : e.1 = k := by
        rcases List.mem_cons.mp hk with h | h
        · exact h
        · exact absurd h hks
      by_cases ht : truthyOpt (jsGet m k)
      · rw [if_pos ht] at he
        have hmem := mem_of_mem_removeKeyFields ks _ e he
        exact absurd hek ((mem_jsDelete m k e).mp hmem).2
      · rw [if_neg ht] at he
        have hmem := mem_of_mem_removeKeyFields ks m e he
        have := jsGet_of_mem_nodup m e hnd hmem
        rw [← hek, this] at ht
        simpa [truthyOpt] using ht

theorem jsGet_append_none {α : Type} (m1 m2 : List (String × α)) (k : String)
    (h1 : jsGet m1 k = none) (h2 : jsGet m2 k = none) : jsGet (m1 ++ m2) k = none := by
  rw [jsGet_eq_none_iff] at h1 h2 ⊢
  intro x hx
  rcases List.mem_append.mp hx with h | h
  · exact h1 x h
  · exact h2 x h

theorem jsGet_singleton_ne_none {α : Type} (pre : String) (a b : Nat) (x : α) (h : a ≠ b) :
    jsGet [(pre ++ natToString a, x)] (pre ++ natToString b) = none := by
  rw [jsGet_cons,
    if_neg (by
      simp only [beq_iff_eq]
      exact fun hEq => h (natToString_append_injective hEq)),
    jsGet_nil]

theorem setIdxFrom_nil (i : Nat) : setIdxFrom i [] = [] := rfl

theorem setIdxFrom_cons (i : Nat) (e : String × AttrValue) (t : AttrMap) :
    setIdxFrom i (e :: t) =
      if e.2 = AttrValue.str "" then setIdxFrom (i + 1) t
      else (i + 1) :: setIdxFrom (i + 1) t := rfl

theorem removeIdxFrom_nil (i : Nat) : removeIdxFrom i [] = [] := rfl

theorem removeIdxFrom_cons (i : Nat) (e : String × AttrValue) (t : AttrMap) :
    removeIdxFrom i (e :: t) =
      if e.2 = AttrValue.str "" then (i + 1) :: removeIdxFrom (i + 1) t
      else removeIdxFrom (i + 1) t := rfl

theorem renderSetList_nil (s : Nat) : renderSetList s [] = "" := rfl

theorem renderSetList_cons (s n : Nat) (t : List Nat) :
    renderSetList s (n :: t) =
      (if s + 1 = 1 then "SET #param" ++ natToString n ++ " = :val" ++ natToString n
       else ", #param" ++ natToString n ++ " = :val" ++ natToString n) ++
        renderSetList (s + 1) t := rfl

theorem renderRemoveList_nil (r : Nat) : renderRemoveList r [] = "" := rfl

theorem renderRemoveList_cons (r n : Nat) (t : List Nat) :
    renderRemoveList r (n :: t) =
      (if r + 1 = 1 then "REMOVE #param" ++ natToString n
       else ", #param" ++ natToString n) ++ renderRemoveList (r + 1) t := rfl

theorem namesFrom_nil (i : Nat) : namesFrom i [] = [] := rfl

theorem namesFrom_cons (i : Nat) (e : String × AttrValue) (t : AttrMap) :
    namesFrom i (e :: t) =
      ("#param" ++ natToString (i + 1), e.1) :: namesFrom (i + 1) t := rfl

theorem valuesFrom_nil (i : Nat) : valuesFrom i [] = [] := rfl

theorem valuesFrom_cons (i : Nat) (e : String × AttrValue) (t : AttrMap) :
    valuesFrom i (e :: t) =
      if e.2 = AttrValue.str "" then valuesFrom (i + 1) t
      else (":val" ++ natToString (i + 1), e.2) :: valuesFrom (i + 1) t := rfl

theorem setIdxFrom_cons_sentinel (i : Nat) (k : String) (t : AttrMap) :
    setIdxFrom i ((k, AttrValue.str "") :: t) = setIdxFrom (i + 1) t := by
  rw [setIdxFrom_cons]; simp

theorem setIdxFrom_cons_set (i : Nat) (k : String) (v : AttrValue) (t : AttrMap)
    (hv : v ≠ AttrValue.str "") :
    setIdxFrom i ((k, v) :: t) = (i + 1) :: setIdxFrom (i + 1) t := by
  rw [setIdxFrom_cons]; simp [hv]

theorem removeIdxFrom_cons_sentinel (i : Nat) (k : String) (t : AttrMap) :
    removeIdxFrom i ((k, AttrValue.str "") :: t) = (i + 1) :: removeIdxFrom (i + 1) t := by
  rw [removeIdxFrom_cons]; simp

theorem removeIdxFrom_cons_set (i : Nat) (k : String) (v : AttrValue) (t : AttrMap)
    (hv : v ≠ AttrValue.str "") :
    removeIdxFrom i ((k, v) :: t) = removeIdxFrom (i + 1) t := by
  rw [removeIdxFrom_cons]; simp [hv]

theorem valuesFrom_cons_sentinel (i : Nat) (k : String) (t : AttrMap) :
    valuesFrom i ((k, AttrValue.str "") :: t) = valuesFrom (i + 1) t := by
  rw [valuesFrom_cons]; simp

theorem valuesFrom_cons_set (i : Nat) (k : String) (v : AttrValue) (t : AttrMap)
    (hv : v ≠ AttrValue.str "") :
    valuesFrom i ((k, v) :: t) = (":val" ++ natToString (i + 1), v) :: valuesFrom (i + 1) t := by
  rw [valuesFrom_cons]; simp [hv]

theorem compileStep_sentinel (i s r : Nat) (ue : String) (ns : NameMap) (vs : AttrMap)
    (sa ra : String) (k : String) :
    compileStep (CompileState.mk i s r (UpdateParams.mk ue (some ns) (some vs)) sa ra)
        (k, AttrValue.str "") =
      CompileState.mk (i + 1) s (r + 1)
        (UpdateParams.mk ue (some (assocSet ns ("#param" ++ natToString (i + 1)) k)) (some vs))
        sa
        (ra ++ (if r + 1 = 1 then "REMOVE #param" ++ natToString (i + 1)
                else ", #param" ++ natToString (i + 1))) := by
  simp [compileStep]

theorem compileStep_set (i s r : Nat) (ue : String) (ns : NameMap) (vs : AttrMap)
    (sa ra : String) (k : String) (v : AttrValue) (hv : v ≠ AttrValue.str "") :
    compileStep (CompileState.mk i s r (UpdateParams.mk ue (some ns) (some vs)) sa ra)
        (k, v) =
      CompileState.mk (i + 1) (s + 1) r
        (UpdateParams.mk ue (some (assocSet ns ("#param" ++ natToString (i + 1)) k))
          (some (assocSet vs (":val" ++ natToString (i + 1)) v)))
        (sa ++ (if s + 1 = 1
                then "SET #param" ++ natToString (i + 1) ++ " = :val" ++ natToString (i + 1)
                else ", #param" ++ natToString (i + 1) ++ " = :val" ++ natToString (i + 1)))
        ra := by
  simp [compileStep, hv]

theorem foldl_compileStep_spec :
    ∀ (item : AttrMap) (i s r : Nat) (ue : String) (ns : NameMap) (vs : AttrMap)
      (sa ra : String),
      (∀ j, i < j → jsGet ns ("#param" ++ natToString j) = none) →
      (∀ j, i < j → jsGet vs (":val" ++ natToString j) = none) →
      item.foldl compileStep
          (CompileState.mk i s r (UpdateParams.mk ue (some ns) (some vs)) sa ra) =
        CompileState.mk (i + item.length) (s + (setIdxFrom i item).length)
          (r + (removeIdxFrom i item).length)
          (UpdateParams.mk ue (some (ns ++ namesFrom i item))
            (some (vs ++ valuesFrom i item)))
          (sa ++ renderSetList s (setIdxFrom i item))
          (ra ++ renderRemoveList r (removeIdxFrom i item)) := by
  intro item
  induction item with
  | nil =>
    intro i s r ue ns vs sa ra _ _
    simp [setIdxFrom_nil, removeIdxFrom_nil, namesFrom_nil, valuesFrom_nil,
      renderSetList_nil, renderRemoveList_nil, String.append_empty]
  | cons e t ih =>
    intro i s r ue ns vs sa ra hns hvs
    obtain ⟨k, v⟩ := e
    have hfresh_ns : jsGet ns ("#param" ++ natToString (i + 1)) = none :=
      hns (i + 1) (Nat.lt_succ_self i)
    have hassoc_ns :
        assocSet ns ("#param" ++ natToString (i + 1)) k =
          ns ++ [("#param" ++ natToString (i + 1), k)] :=
      assocSet_of_jsGet_none ns _ k hfresh_ns
    have hns' : ∀ j, i + 1 < j →
        jsGet (ns ++ [("#param" ++ natToString (i + 1), k)])
          ("#param" ++ natToString j) = none := by
      intro j hj
      exact jsGet_append_none _ _ _ (hns j (by omega))
        (jsGet_singleton_ne_none "#param" (i + 1) j k (by omega))
    by_cases hv : v = AttrValue.str ""
    · subst hv
      rw [List.foldl_cons, compileStep_sentinel, hassoc_ns,
        ih (i + 1) s (r + 1) ue _ vs sa _ hns' (fun j hj => hvs j (by omega))]
      rw [setIdxFrom_cons_sentinel, removeIdxFrom_cons_sentinel, namesFrom_cons,
        valuesFrom_cons_sentinel, renderRemoveList_cons]
      simp only [CompileState.mk.injEq, UpdateParams.mk.injEq, Option.some.injEq,
        List.length_cons, List.append_assoc, List.singleton_append, List.cons_append,
        List.nil_append, String.append_assoc, true_and, and_true]
      all_goals omega
    · rw [List.foldl_cons, compileStep_set i s r ue ns vs sa ra k v hv, hassoc_ns]
      have hvs' : ∀ j, i + 1 < j →
          jsGet (assocSet vs (":val" ++ natToString (i + 1)) v)
            (":val" ++ natToString j) = none := by
        intro j hj
        rw [assocSet_of_jsGet_none vs _ v (hvs (i + 1) (Nat.lt_succ_self i))]
        exact jsGet_append_none _ _ _ (hvs j (by omega))
          (jsGet_singleton_ne_none ":val" (i + 1) j v (by omega))
      rw [ih (i + 1) (s + 1) r ue _ _ _ ra hns' hvs']
      rw [assocSet_of_jsGet_none vs _ v (hvs (i + 1) (Nat.lt_succ_self i))]
      rw [setIdxFrom_cons_set i k v t hv, removeIdxFrom_cons_set i k v t hv, namesFrom_cons,
        valuesFrom_cons_set i k v t hv, renderSetList_cons]
      simp only [CompileState.mk.injEq, UpdateParams.mk.injEq, Option.some.injEq,
        List.length_cons, List.append_assoc, List.singleton_append, List.cons_append,
        List.nil_append, String.append_assoc, true_and, and_true]
      all_goals omega

theorem compileUpdate_spec (ue : String) (item : AttrMap) :
    compileUpdate (UpdateParams.mk ue (some []) (some [])) item =
      UpdateParams.mk
        (ue ++ (" " ++ renderSetList 0 (setIdxFrom 0 item)) ++
          (" " ++ renderRemoveList 0 (removeIdxFrom 0 item)))
        (some (namesFrom 0 item))
        (if setIdxFrom 0 item = [] then none
         else some (valuesFrom 0 item)) := by
  simp only [compileUpdate]
  rw [foldl_compileStep_spec item 0 0 0 ue [] [] " " " "
    (fun j _ => rfl) (fun j _ => rfl)]
  by_cases hempty : setIdxFrom 0 item = []
  · simp [hempty, renderSetList_nil]
  · have hlen : (setIdxFrom 0 item).length ≠ 0 := by
      intro h
      exact hempty (List.eq_nil_of_length_eq_zero h)
    simp [hempty, hlen]

theorem lt_of_mem_setIdxFrom :
    ∀ (t : AttrMap) (i n : Nat), n ∈ setIdxFrom i t → i < n := by
  intro t
  induction t with
  | nil => intro i n h; rw [setIdxFrom_nil] at h; cases h
  | cons e t ih =>
    intro i n h
    rw [setIdxFrom_cons] at h
    by_cases he : e.2 = AttrValue.str ""
    · rw [if_pos he] at h
      have := ih (i + 1) n h
      omega
    · rw [if_neg he] at h
      rcases List.mem_cons.mp h with rfl | hmem
      · omega
      · have := ih (i + 1) n hmem
        omega

theorem lt_of_mem_removeIdxFrom :
    ∀ (t : AttrMap) (i n : Nat), n ∈ removeIdxFrom i t → i < n := by
  intro t
  induction t with
  | nil => intro i n h; rw [removeIdxFrom_nil] at h; cases h
  | cons e t ih =>
    intro i n h
    rw [removeIdxFrom_cons] at h
    by_cases he : e.2 = AttrValue.str ""
    · rw [if_pos he] at h
      rcases List.mem_cons.mp h with rfl | hmem
      · omega
      · have := ih (i + 1) n hmem
        omega
    · rw [if_neg he] at h
      have := ih (i + 1) n h
      omega

theorem mem_setIdxFrom_iff :
    ∀ (t : AttrMap) (i j : Nat) (hj : j < t.length),
      ((i + j + 1) ∈ setIdxFrom i t ↔ (t.get ⟨j, hj⟩).2 ≠ AttrValue.str "") := by
  intro t
  induction t with
  | nil => intro i j hj; simp at hj
  | cons e t ih =>
    intro i j hj
    rw [setIdxFrom_cons]
    match j with
    | 0 =>
      simp only [List.get]
      by_cases he : e.2 = AttrValue.str ""
      · rw [if_pos he]
        constructor
        · intro hmem
          have := lt_of_mem_setIdxFrom t (i + 1) _ hmem
          omega
        · intro hne
          exact absurd he hne
      · rw [if_neg he]
        constructor
        · intro _
          exact he
        · intro _
          exact List.mem_cons_self _ _
    | j + 1 =>
      have hj' : j < t.length := by simpa using hj
      have hget : (e :: t).get ⟨j + 1, hj⟩ = t.get ⟨j, hj'⟩ := rfl
      have base := ih (i + 1) j hj'
      have harith : i + 1 + j + 1 = i + (j + 1) + 1 := by omega
      rw [harith] at base
      rw [hget]
      by_cases he : e.2 = AttrValue.str ""
      · rw [if_pos he]
        exact base
      · rw [if_neg he]
        constructor
        · intro hmem
          rcases List.mem_cons.mp hmem with hEq | hmem'
          · omega
          · exact base.mp hmem'
        · intro hne
          exact List.mem_cons_of_mem _ (base.mpr hne)

theorem mem_removeIdxFrom_iff :
    ∀ (t : AttrMap) (i j : Nat) (hj : j < t.length),
      ((i + j + 1) ∈ removeIdxFrom i t ↔ (t.get ⟨j, hj⟩).2 = AttrValue.str "") := by
  intro t
  induction t with
  | nil => intro i j hj; simp at hj
  | cons e t ih =>
    intro i j hj
    rw [removeIdxFrom_cons]
    match j with
    | 0 =>
      simp only [List.get]
      by_cases he : e.2 = AttrValue.str ""
      · rw [if_pos he]
        constructor
        · intro _
          exact he
        · intro _
          exact List.mem_cons_self _ _
      · rw [if_neg he]
        constructor
        · intro hmem
          have := lt_of_mem_removeIdxFrom t (i + 1) _ hmem
          omega
        · intro hEq
          exact absurd hEq he
    | j + 1 =>
      have hj' : j < t.length := by simpa using hj
      have hget : (e :: t).get ⟨j + 1, hj⟩ = t.get ⟨j, hj'⟩ := rfl
      have base := ih (i + 1) j hj'
      have harith : i + 1 + j + 1 = i + (j + 1) + 1 := by omega
      rw [harith] at base
      rw [hget]
      by_cases he : e.2 = AttrValue.str ""
      · rw [if_pos he]
        constructor
        · intro hmem
          rcases List.mem_cons.mp hmem with hEq | hmem'
          · omega
          · exact base.mp hmem'
        · intro hEq
          exact List.mem_cons_of_mem _ (base.mpr hEq)
      · rw [if_neg he]
        exact base

theorem not_mem_removeIdxFrom_of_mem_setIdxFrom :
    ∀ (t : AttrMap) (i n : Nat), n ∈ setIdxFrom i t → n ∉ removeIdxFrom i t := by
  intro t
  induction t with
  | nil => intro i n h; rw [setIdxFrom_nil] at h; cases h
  | cons e t ih =>
    intro i n h
    rw [setIdxFrom_cons] at h
    rw [removeIdxFrom_cons]
    by_cases he : e.2 = AttrValue.str ""
    · rw [if_pos he] at h
      rw [if_pos he]
      intro hmem
      rcases List.mem_cons.mp hmem with hEq | hmem'
      · have := lt_of_mem_setIdxFrom t (i + 1) n h
        omega
      · exact ih (i + 1) n h hmem'
    · rw [if_neg he] at h
      rw [if_neg he]
      rcases List.mem_cons.mp h with rfl | hmem
      · intro hmem'
        have := lt_of_mem_removeIdxFrom t (i + 1) _ hmem'
        omega
      · exact ih (i + 1) n hmem

theorem setIdxFrom_eq_nil_of_sentinel :
    ∀ (t : AttrMap) (i : Nat), (∀ e ∈ t, e.2 = AttrValue.str "") → setIdxFrom i t = [] := by
  intro t
  induction t with
  | nil => intro i _; rfl
  | cons e t ih =>
    intro i hall
    rw [setIdxFrom_cons, if_pos (hall e (List.mem_cons_self e t))]
    exact ih (i + 1) (fun x hx => hall x (List.mem_cons_of_mem e hx))

theorem jsGet_removeKeyFields_not_mem :
    ∀ (ks : List String) (m : AttrMap) (k : String),
      k ∉ ks → jsGet (removeKeyFields ks m) k = jsGet m k := by
  intro ks
  induction ks with
  | nil => intro m k _; rfl
  | cons k' ks ih =>
    intro m k hk
    rw [removeKeyFields_cons]
    have hne : k' ≠ k := fun h => hk (h ▸ List.mem_cons_self k' ks)
    have hk' : k ∉ ks := fun h => hk (List.mem_cons_of_mem _ h)
    by_cases ht : truthyOpt (jsGet m k')
    · rw [if_pos ht, ih _ k hk', jsGet_jsDelete_ne m k' k hne]
    · rw [if_neg ht]
      exact ih _ k hk'

theorem updateAttributes_callerItem (su : Bool) (now tn : String) (key item0 : AttrMap) :
    (updateAttributes su now tn key item0).callerItem =
      removeKeyFields (key.map Prod.fst)
        (if su then assocSet item0 "updated" (AttrValue.str now) else item0) := rfl

theorem updateAttributes_request_params (su : Bool) (now tn : String) (key item0 : AttrMap) :
    (updateAttributes su now tn key item0).request.params =
      UpdateParams.mk
        ("" ++
          (" " ++ renderSetList 0 (setIdxFrom 0 (updateAttributes su now tn key item0).callerItem)) ++
          (" " ++ renderRemoveList 0 (removeIdxFrom 0 (updateAttributes su now tn key item0).callerItem)))
        (some (namesFrom 0 (updateAttributes su now tn key item0).callerItem))
        (if setIdxFrom 0 (updateAttributes su now tn key item0).callerItem = [] then none
         else some (valuesFrom 0 (updateAttributes su now tn key item0).callerItem)) := by
  have h : (updateAttributes su now tn key item0).request.params =
      compileUpdate (UpdateParams.mk "" (some []) (some []))
        (updateAttributes su now tn key item0).callerItem := rfl
  rw [h, compileUpdate_spec]

theorem jsGet_updatedStage_ne (su : Bool) (m : AttrMap) (nowU : String) (k : String)
    (hk : k ≠ "updated") :
    jsGet
      (if su then
        (if truthyOpt (jsGet m "created") then
          assocSet m "updated" ((jsGet m "created").getD AttrValue.null)
        else assocSet m "updated" (AttrValue.str nowU))
      else m) k = jsGet m k := by
  cases su
  · rfl
  · by_cases h : truthyOpt (jsGet m "created")
    · rw [if_pos (by trivial), if_pos h, jsGet_assocSet_ne _ _ _ _ (Ne.symm hk)]
    · rw [if_pos (by trivial), if_neg h, jsGet_assocSet_ne _ _ _ _ (Ne.symm hk)]

theorem jsGet_createStamp_id (sc su : Bool) (id nowC nowU : String) (item0 : AttrMap) :
    jsGet (createStamp true sc su id nowC nowU item0) "id" = some (AttrValue.str id) := by
  simp only [createStamp, ite_true]
  rw [jsGet_updatedStage_ne su _ nowU "id" (by decide)]
  cases sc
  · exact jsGet_assocSet_self _ _ _
  · rw [if_pos (by trivial), jsGet_assocSet_ne _ _ _ _ (by decide)]
    exact jsGet_assocSet_self _ _ _

theorem jsGet_createStamp_created_managed (si su : Bool) (id nowC nowU : String)
    (item0 : AttrMap) :
    jsGet (createStamp si true su id nowC nowU item0) "created" =
      some (AttrValue.str nowC) := by
  simp only [createStamp, ite_true]
  rw [jsGet_updatedStage_ne su _ nowU "created" (by decide)]
  exact jsGet_assocSet_self _ _ _

theorem jsGet_createStamp_updated_managed (si : Bool) (id nowC nowU : String)
    (item0 : AttrMap) (h : nowC ≠ "") :
    jsGet (createStamp si true true id nowC nowU item0) "updated" =
      some (AttrValue.str nowC) := by
  simp only [createStamp, ite_true]
  rw [jsGet_assocSet_self]
  rw [if_pos (by simp [truthyOpt, truthy, h])]
  simp only [Option.getD_some]
  exact jsGet_assocSet_self _ _ _

theorem jsGet_item1_created (si : Bool) (id : String) (item0 : AttrMap) :
    jsGet (if si then assocSet item0 "id" (AttrValue.str id) else item0) "created" =
      jsGet item0 "created" := by
  cases si
  · rfl
  · rw [if_pos (by trivial), jsGet_assocSet_ne _ _ _ _ (by decide)]

theorem jsGet_createStamp_caller_created (si : Bool) (id nowC nowU : String)
    (item0 : AttrMap) (c : AttrValue) (hc : jsGet item0 "created" = some c)
    (ht : truthy c = true) :
    jsGet (createStamp si false true id nowC nowU item0) "updated" = some c := by
  simp only [createStamp, ite_true, Bool.false_eq_true, ite_false]
  rw [jsGet_item1_created si id item0, hc]
  rw [if_pos (by simp [truthyOpt, ht])]
  simp only [Option.getD_some]
  exact jsGet_assocSet_self _ _ _

theorem jsGet_createStamp_absent_created (si : Bool) (id nowC nowU : String)
    (item0 : AttrMap) (hc : jsGet item0 "created" = none) :
    jsGet (createStamp si false true id nowC nowU item0) "updated" =
      some (AttrValue.str nowU) := by
  simp only [createStamp, ite_true, Bool.false_eq_true, ite_false]
  rw [jsGet_item1_created si id item0, hc]
  rw [if_neg (by simp [truthyOpt])]
  exact jsGet_assocSet_self _ _ _

theorem create_fst (si sc su : Bool) (itemId : Option String) (genId nowC nowU : String)
    (item0 : AttrMap) (outcome : Except String Unit) :
    (create si sc su itemId genId nowC nowU item0 outcome).1 =
      createStamp si sc su (createId itemId genId) nowC nowU item0 := by
  cases outcome <;> rfl

theorem create_snd_error (si sc su : Bool) (itemId : Option String)
    (genId nowC nowU : String) (item0 : AttrMap) (e : String) :
    (create si sc su itemId genId nowC nowU item0 (Except.error e)).2 =
      Except.error (AdapterError.raw e) := rfl

theorem create_snd_ok_both (si : Bool) (itemId : Option String)
    (genId nowC nowU : String) (item0 : AttrMap) :
    (create si true true itemId genId nowC nowU item0 (Except.ok ())).2 =
      Except.ok
        (((if si then
            [("id", jsGet (createStamp si true true (createId itemId genId) nowC nowU item0) "id")]
          else []) ++
          [("updated",
            jsGet (createStamp si true true (createId itemId genId) nowC nowU item0) "updated")]) ++
          [("created",
            jsGet (createStamp si true true (createId itemId genId) nowC nowU item0) "created")]) := rfl

/-- C1, counterexample: the key-exclusion step of `updateWithAttributes`
does not remove a key-named field whose value is falsy.  With key
`{id:"1"}` and attributes `{id:""}`, the field `id` survives the step, its
placeholder `#param1 -> id` appears in the name map, and the compiled
expression REMOVEs the key attribute — refuting the claimed invariant
`attributes ∩ key.fields = ∅` for falsy overlapping values. -/
theorem c1_key_exclusion_counterexample :
    (updateAttributes false "" "T" [("id", AttrValue.str "1")]
        [("id", AttrValue.str "")]).callerItem = [("id", AttrValue.str "")] ∧
    (updateAttributes false "" "T" [("id", AttrValue.str "1")]
        [("id", AttrValue.str "")]).request.params.expressionAttributeNames =
      some [("#param1", "id")] ∧
    (updateAttributes false "" "T" [("id", AttrValue.str "1")]
        [("id", AttrValue.str "")]).request.params.updateExpression = "  REMOVE #param1" := by
  decide

/-- C1, amended: the key-exclusion step removes exactly the key-named
fields whose current value is truthy.  After the step, every surviving
field whose name appears in the key has a falsy value, and every field
whose name is not a key name survives untouched. -/
theorem c1_key_exclusion_amended (su : Bool) (now tn : String) (key item0 : AttrMap)
    (hnd : ((if su then assocSet item0 "updated" (AttrValue.str now) else item0).map
        Prod.fst).Nodup) :
    (∀ e ∈ (updateAttributes su now tn key item0).callerItem,
        e.1 ∈ key.map Prod.fst → truthy e.2 = false) ∧
    (∀ e ∈ (if su then assocSet item0 "updated" (AttrValue.str now) else item0),
        e.1 ∉ key.map Prod.fst → e ∈ (updateAttributes su now tn key item0).callerItem) := by
  rw [updateAttributes_callerItem]
  constructor
  · intro e he hk
    exact truthy_of_mem_removeKeyFields _ _ e hnd he hk
  · intro e he hk
    exact mem_removeKeyFields_of_not_mem _ _ e he hk

theorem c1_key_exclusion_amended_witness :
    ("note", AttrValue.str "n") ∈ (updateAttributes false "" "T" [("id", AttrValue.str "1")]
        [("id", AttrValue.str "x"), ("note", AttrValue.str "n")]).callerItem := by
  have h := c1_key_exclusion_amended false "" "T" [("id", AttrValue.str "1")]
    [("id", AttrValue.str "x"), ("note", AttrValue.str "n")] (by decide)
  exact h.2 ("note", AttrValue.str "n") (by decide) (by decide)

/-- C2: `updateAttributes({id:"1"}, {name:"Bob", note:""})` with a schema
managing none of id/created/updated yields exactly the update expression
`" SET #param1 = :val1 REMOVE #param2"`, names `{#param1:name,
#param2:note}`, values `{:val1:"Bob"}`, and result `{id:"1"}` — 1-based
placeholder indices in processing order, counter shared across SET and
REMOVE. -/
theorem c2_update_scenario :
    updateAttributes false "" "T" [("id", AttrValue.str "1")]
        [("name", AttrValue.str "Bob"), ("note", AttrValue.str "")] =
      UpdateWithAttributesRun.mk
        [("name", AttrValue.str "Bob"), ("note", AttrValue.str "")]
        (UpdateItemRequest.mk "T" "INDEXES" [("id", AttrValue.str "1")]
          (UpdateParams.mk " SET #param1 = :val1 REMOVE #param2"
            (some [("#param1", "name"), ("#param2", "note")])
            (some [(":val1", AttrValue.str "Bob")]))) ∧
    updateWithAttributesRespond false [("id", AttrValue.str "1")]
        [("name", AttrValue.str "Bob"), ("note", AttrValue.str "")] (Except.ok ()) =
      Except.ok [("id", some (AttrValue.str "1"))] := by
  decide

/-- C3: each field surviving key exclusion is routed to exactly one of the
SET or REMOVE clause, and to REMOVE precisely when its value is the
empty-string delete sentinel: the compiled request renders the
sentinel-partition of the surviving fields, the value map exists exactly
for the SET side, and the SET/REMOVE index sets are complementary. -/
theorem c3_set_remove_partition (su : Bool) (now tn : String) (key item0 : AttrMap) :
    ((updateAttributes su now tn key item0).request.params =
      UpdateParams.mk
        ("" ++
          (" " ++
            renderSetList 0 (setIdxFrom 0 (updateAttributes su now tn key item0).callerItem)) ++
          (" " ++
            renderRemoveList 0
              (removeIdxFrom 0 (updateAttributes su now tn key item0).callerItem)))
        (some (namesFrom 0 (updateAttributes su now tn key item0).callerItem))
        (if setIdxFrom 0 (updateAttributes su now tn key item0).callerItem = [] then none
         else some (valuesFrom 0 (updateAttributes su now tn key item0).callerItem))) ∧
    (∀ j (hj : j < (updateAttributes su now tn key item0).callerItem.length),
      ((j + 1) ∈ setIdxFrom 0 (updateAttributes su now tn key item0).callerItem ↔
        ((updateAttributes su now tn key item0).callerItem.get ⟨j, hj⟩).2 ≠
          AttrValue.str "")) ∧
    (∀ j (hj : j < (updateAttributes su now tn key item0).callerItem.length),
      ((j + 1) ∈ removeIdxFrom 0 (updateAttributes su now tn key item0).callerItem ↔
        ((updateAttributes su now tn key item0).callerItem.get ⟨j, hj⟩).2 =
          AttrValue.str "")) ∧
    (∀ n, n ∈ setIdxFrom 0 (updateAttributes su now tn key item0).callerItem →
      n ∉ removeIdxFrom 0 (updateAttributes su now tn key item0).callerItem) := by
  refine ⟨updateAttributes_request_params su now tn key item0, ?_, ?_, ?_⟩
  · intro j hj
    have h := mem_setIdxFrom_iff _ 0 j hj
    rwa [Nat.zero_add] at h
  · intro j hj
    have h := mem_removeIdxFrom_iff _ 0 j hj
    rwa [Nat.zero_add] at h
  · intro n
    exact not_mem_removeIdxFrom_of_mem_setIdxFrom _ 0 n

theorem c3_set_remove_partition_witness :
    (1 : Nat) ∈ setIdxFrom 0 (updateAttributes false "" "T" [("id", AttrValue.str "1")]
        [("name", AttrValue.str "Bob"), ("note", AttrValue.str "")]).callerItem ∧
    (2 : Nat) ∈ removeIdxFrom 0 (updateAttributes false "" "T" [("id", AttrValue.str "1")]
        [("name", AttrValue.str "Bob"), ("note", AttrValue.str "")]).callerItem ∧
    (1 : Nat) ∉ removeIdxFrom 0 (updateAttributes false "" "T" [("id", AttrValue.str "1")]
        [("name", AttrValue.str "Bob"), ("note", AttrValue.str "")]).callerItem := by
  have h := c3_set_remove_partition false "" "T" [("id", AttrValue.str "1")]
    [("name", AttrValue.str "Bob"), ("note", AttrValue.str "")]
  refine ⟨(h.2.1 0 (by decide)).mpr (by decide), (h.2.2.1 1 (by decide)).mpr (by decide), ?_⟩
  exact h.2.2.2 1 ((h.2.1 0 (by decide)).mpr (by decide))

/-- C4: when every field surviving key exclusion is the empty-string
delete sentinel, the value-placeholder map is deleted from the outgoing
parameters (`none`, not an empty map), the SET side is empty, and the
update expression consists of the REMOVE clause alone. -/
theorem c4_all_sentinel (su : Bool) (now tn : String) (key item0 : AttrMap)
    (hne : (updateAttributes su now tn key item0).callerItem ≠ [])
    (hall : ∀ e ∈ (updateAttributes su now tn key item0).callerItem,
      e.2 = AttrValue.str "") :
    (updateAttributes su now tn key item0).request.params.expressionAttributeValues = none ∧
    setIdxFrom 0 (updateAttributes su now tn key item0).callerItem = [] ∧
    removeIdxFrom 0 (updateAttributes su now tn key item0).callerItem ≠ [] ∧
    (updateAttributes su now tn key item0).request.params.updateExpression =
      "  " ++
        renderRemoveList 0 (removeIdxFrom 0 (updateAttributes su now tn key item0).callerItem) := by
  have hset := setIdxFrom_eq_nil_of_sentinel _ 0 hall
  have hp := updateAttributes_request_params su now tn key item0
  refine ⟨?_, hset, ?_, ?_⟩
  · rw [hp]
    simp [hset]
  · rcases hcs : (updateAttributes su now tn key item0).callerItem with _ | ⟨e, t⟩
    · exact absurd hcs hne
    · have he : e.2 = AttrValue.str "" := hall e (hcs ▸ List.mem_cons_self e t)
      rw [removeIdxFrom_cons, if_pos he]
      simp
  · rw [hp]
    simp only [hset, renderSetList_nil]
    have hx : ∀ X : String, ("" ++ (" " ++ "")) ++ (" " ++ X) = "  " ++ X := by
      intro X
      rw [String.append_empty, String.empty_append, ← String.append_assoc]
      rfl
    exact hx _

theorem c4_all_sentinel_witness :
    (updateAttributes false "" "T" [("id", AttrValue.str "1")]
        [("note", AttrValue.str ""), ("tag", AttrValue.str "")]).request.params.expressionAttributeValues =
      none ∧
    (updateAttributes false "" "T" [("id", AttrValue.str "1")]
        [("note", AttrValue.str ""), ("tag", AttrValue.str "")]).request.params.updateExpression =
      "  " ++ renderRemoveList 0 (removeIdxFrom 0 (updateAttributes false "" "T"
        [("id", AttrValue.str "1")]
        [("note", AttrValue.str ""), ("tag", AttrValue.str "")]).callerItem) := by
  have h := c4_all_sentinel false "" "T" [("id", AttrValue.str "1")]
    [("note", AttrValue.str ""), ("tag", AttrValue.str "")] (by decide) (by decide)
  exact ⟨h.1, h.2.2.2⟩

/-- C5, counterexample: an attribute map that is empty after key exclusion
is not rejected before the store call — the request is still assembled,
with the clause-less expression `"  "` and no values map, and when the
store accepts it the call succeeds with the id echo; no caller error is
raised anywhere on this path. -/
theorem c5_no_precheck_counterexample :
    (updateAttributes false "" "T" [("id", AttrValue.str "1")]
        [("id", AttrValue.str "1")]).callerItem = [] ∧
    (updateAttributes false "" "T" [("id", AttrValue.str "1")]
        [("id", AttrValue.str "1")]).request.params.updateExpression = "  " ∧
    (updateAttributes false "" "T" [("id", AttrValue.str "1")]
        [("id", AttrValue.str "1")]).request.params.expressionAttributeValues = none ∧
    updateWithAttributesRespond false [("id", AttrValue.str "1")] [] (Except.ok ()) =
      Except.ok [("id", some (AttrValue.str "1"))] := by
  decide

/-- C5, amended: no emptiness validation exists before the network call.
When the attribute map is empty after key exclusion, the transmitted
request carries the expression `"  "` (the two untouched clause
accumulators), an empty name map and no values map, and a store rejection
is mapped through `handleError` (so an unrecognized backend error surfaces
as `badImplementation`, never as a caller error). -/
theorem c5_no_precheck_amended (su : Bool) (now tn : String) (key item0 : AttrMap)
    (h : (updateAttributes su now tn key item0).callerItem = []) :
    (updateAttributes su now tn key item0).request.params.updateExpression = "  " ∧
    (updateAttributes su now tn key item0).request.params.expressionAttributeNames = some [] ∧
    (updateAttributes su now tn key item0).request.params.expressionAttributeValues = none ∧
    (∀ e : String,
      updateWithAttributesRespond su key (updateAttributes su now tn key item0).callerItem
          (Except.error e) =
        Except.error (AdapterError.boom (handleError e))) := by
  have hp := updateAttributes_request_params su now tn key item0
  rw [h] at hp
  refine ⟨?_, ?_, ?_, fun e => rfl⟩
  · rw [hp]; decide
  · rw [hp]; decide
  · rw [hp]; decide

theorem c5_no_precheck_amended_witness :
    (updateAttributes false "" "T2" [("id", AttrValue.str "7")]
        [("id", AttrValue.str "7")]).request.params.updateExpression = "  " := by
  have h := c5_no_precheck_amended false "" "T2" [("id", AttrValue.str "7")]
    [("id", AttrValue.str "7")] (by decide)
  exact h.1

/-- C6: the TypeScript `projectionExpression` tests `Array.isArray` on the
original string argument instead of the split result, so it returns
`undefined` for every input — in particular for `"a,b,c"` — while the
builder (reachable in the JavaScript variant, which reassigns `fields`
before the test) produces the documented `"#a, #b, #c"` object.  The claim
describes the builder's contract; the TypeScript code never reaches it. -/
theorem c6_projection_always_undefined :
    (∀ s : String, projectionExpression s = none) ∧
    projectionExpression "a,b,c" = none ∧
    projectionExpressionJs "a,b,c" =
      some (ProjectionResult.mk "#a, #b, #c" [("#a", "a"), ("#b", "b"), ("#c", "c")]) := by
  refine ⟨fun s => rfl, by decide, by decide⟩

/-- C7, counterexample: `create` rethrows the backend error raw — a
`ConditionalCheckFailedException` reaches the caller as the unmapped
backend error, not as the Boom conflict that `handleError` would
produce. -/
theorem c7_create_conflict_counterexample :
    (create false false false none "gen" "t1" "t2" [("accountId", AttrValue.str "a")]
        (Except.error "ConditionalCheckFailedException")).2 =
      Except.error (AdapterError.raw "ConditionalCheckFailedException") ∧
    AdapterError.raw "ConditionalCheckFailedException" ≠
      AdapterError.boom BoomKind.conflict := by
  decide

/-- C7, amended: on any backend failure `create` surfaces the raw error
unmapped (its catch block rethrows `error` itself); the
`ConditionalCheckFailedException -> conflict` mapping exists in
`handleError` but is not invoked on the create path. -/
theorem c7_create_conflict_amended (si sc su : Bool) (itemId : Option String)
    (genId nowC nowU : String) (item0 : AttrMap) (e : String) :
    (create si sc su itemId genId nowC nowU item0 (Except.error e)).2 =
      Except.error (AdapterError.raw e) ∧
    handleError "ConditionalCheckFailedException" = BoomKind.conflict := by
  exact ⟨create_snd_error si sc su itemId genId nowC nowU item0 e, rfl⟩

/-- C8: a point lookup whose store response carries no item fails with the
mapped Boom NotFound error (and a present item is returned as the value),
never an unmapped backend error. -/
theorem c8_get_absent_notfound :
    findOne (Except.ok none) = Except.error (AdapterError.boom BoomKind.notFound) ∧
    (∀ m : AttrMap, findOne (Except.ok (some m)) = Except.ok m) := by
  exact ⟨rfl, fun m => rfl⟩

/-- C9, counterexample: with a schema managing only `updated`, a
caller-supplied truthy `created` value is copied into `updated` — the
stamped `updated` equals the caller's `created` (`2020-01-01...`), not the
current time (`2021-06-01...`), refuting the claim that a caller-supplied
`created` never determines `updated`. -/
theorem c9_updated_stamp_counterexample :
    jsGet (create false false true none "gen" "NC" "2021-06-01T00:00:00.000Z"
        [("created", AttrValue.str "2020-01-01T00:00:00.000Z")] (Except.ok ())).1 "updated" =
      some (AttrValue.str "2020-01-01T00:00:00.000Z") ∧
    AttrValue.str "2020-01-01T00:00:00.000Z" ≠ AttrValue.str "2021-06-01T00:00:00.000Z" ∧
    (create false false true none "gen" "NC" "2021-06-01T00:00:00.000Z"
        [("created", AttrValue.str "2020-01-01T00:00:00.000Z")] (Except.ok ())).2 =
      Except.ok [("updated", some (AttrValue.str "2020-01-01T00:00:00.000Z"))] := by
  decide

/-- C9, amended: `updated` is set equal to whatever truthy `created` value
the item carries after the optional `created` stamping — whether stamped
by this call or supplied by the caller — and is stamped with the current
time only when `created` is absent or falsy; consequently, with
`managesCreated` and `managesUpdated` both true, the result surfaces
`created == updated`. -/
theorem c9_updated_stamp_amended (si : Bool) (itemId : Option String)
    (genId nowC nowU : String) (item0 : AttrMap) (outcome : Except String Unit) :
    (nowC ≠ "" →
      jsGet (create si true true itemId genId nowC nowU item0 outcome).1 "created" =
          some (AttrValue.str nowC) ∧
      jsGet (create si true true itemId genId nowC nowU item0 outcome).1 "updated" =
          some (AttrValue.str nowC)) ∧
    (∀ c : AttrValue, jsGet item0 "created" = some c → truthy c = true →
      jsGet (create si false true itemId genId nowC nowU item0 outcome).1 "updated" = some c) ∧
    (jsGet item0 "created" = none →
      jsGet (create si false true itemId genId nowC nowU item0 outcome).1 "updated" =
        some (AttrValue.str nowU)) ∧
    (nowC ≠ "" →
      (create si true true itemId genId nowC nowU item0 (Except.ok ())).2 =
        Except.ok
          (((if si then
              [("id",
                jsGet (createStamp si true true (createId itemId genId) nowC nowU item0) "id")]
            else []) ++
            [("updated", some (AttrValue.str nowC))]) ++
            [("created", some (AttrValue.str nowC))])) := by
  refine ⟨?_, ?_, ?_, ?_⟩
  · intro h
    rw [create_fst]
    exact ⟨jsGet_createStamp_created_managed si true _ nowC nowU item0,
      jsGet_createStamp_updated_managed si _ nowC nowU item0 h⟩
  · intro c hc ht
    rw [create_fst]
    exact jsGet_createStamp_caller_created si _ nowC nowU item0 c hc ht
  · intro hc
    rw [create_fst]
    exact jsGet_createStamp_absent_created si _ nowC nowU item0 hc
  · intro h
    rw [create_snd_ok_both,
      jsGet_createStamp_updated_managed si _ nowC nowU item0 h,
      jsGet_createStamp_created_managed si true _ nowC nowU item0]

theorem c9_updated_stamp_amended_witness :
    jsGet (create true true true none "gen" "2021-01-01T00:00:00.000Z"
        "2021-01-01T00:00:00.001Z" [] (Except.ok ())).1 "created" =
      some (AttrValue.str "2021-01-01T00:00:00.000Z") ∧
    jsGet (create true true true none "gen" "2021-01-01T00:00:00.000Z"
        "2021-01-01T00:00:00.001Z" [] (Except.ok ())).1 "updated" =
      some (AttrValue.str "2021-01-01T00:00:00.000Z") := by
  have h := c9_updated_stamp_amended true none "gen" "2021-01-01T00:00:00.000Z"
    "2021-01-01T00:00:00.001Z" [] (Except.ok ())
  exact h.1 (by decide)

/-- C10: the mutating operations act on the caller's own maps (modelled by
returning the caller's map as post-state): `create` writes the generated
id, `created` and `updated` into the caller's item; `updateWithAttributes`
writes the `updated` stamp into the caller's attribute map and deletes
from it every key-named field whose value is truthy. -/
theorem c10_caller_maps_mutated (itemId : Option String) (genId nowC nowU : String)
    (item0 : AttrMap) (outcome : Except String Unit) (su : Bool) (now tn : String)
    (key item1 : AttrMap) :
    (itemId = none → nowC ≠ "" →
      jsGet (create true true true itemId genId nowC nowU item0 outcome).1 "id" =
          some (AttrValue.str genId) ∧
      jsGet (create true true true itemId genId nowC nowU item0 outcome).1 "created" =
          some (AttrValue.str nowC) ∧
      jsGet (create true true true itemId genId nowC nowU item0 outcome).1 "updated" =
          some (AttrValue.str nowC)) ∧
    ("updated" ∉ key.map Prod.fst →
      jsGet (updateAttributes true now tn key item1).callerItem "updated" =
        some (AttrValue.str now)) ∧
    (∀ k, (key.map Prod.fst).Nodup → k ∈ key.map Prod.fst →
      truthyOpt (jsGet (if su then assocSet item1 "updated" (AttrValue.str now) else item1) k) =
        true →
      jsGet (updateAttributes su now tn key item1).callerItem k = none) := by
  refine ⟨?_, ?_, ?_⟩
  · intro hid h
    subst hid
    rw [create_fst]
    exact ⟨jsGet_createStamp_id true true genId nowC nowU item0,
      jsGet_createStamp_created_managed true true genId nowC nowU item0,
      jsGet_createStamp_updated_managed true genId nowC nowU item0 h⟩
  · intro hk
    rw [updateAttributes_callerItem,
      show (if (true : Bool) then assocSet item1 "updated" (AttrValue.str now) else item1) =
        assocSet item1 "updated" (AttrValue.str now) from rfl,
      jsGet_removeKeyFields_not_mem _ _ _ hk]
    exact jsGet_assocSet_self _ _ _
  · intro k hnd hk ht
    rw [updateAttributes_callerItem]
    exact jsGet_removeKeyFields_of_truthy _ _ k hnd hk ht

theorem c10_caller_maps_mutated_witness :
    jsGet (create true true true none "gen" "NC" "NU" [] (Except.ok ())).1 "id" =
      some (AttrValue.str "gen") ∧
    jsGet (updateAttributes true "NOW" "T" [("id", AttrValue.str "1")]
        [("name", AttrValue.str "x")]).callerItem "updated" = some (AttrValue.str "NOW") ∧
    jsGet (updateAttributes true "NOW" "T" [("id", AttrValue.str "1")]
        [("id", AttrValue.str "9")]).callerItem "id" = none := by
  have h1 := c10_caller_maps_mutated none "gen" "NC" "NU" [] (Except.ok ()) true "NOW" "T"
    [("id", AttrValue.str "1")] [("name", AttrValue.str "x")]
  have h2 := c10_caller_maps_mutated none "gen" "NC" "NU" [] (Except.ok ()) true "NOW" "T"
    [("id", AttrValue.str "1")] [("id", AttrValue.str "9")]
  exact ⟨(h1.1 rfl (by decide)).1, h1.2.1 (by decide), h2.2.2 "id" (by decide) (by decide) (by decide)⟩

end AwsDynamoDBAdapter
